import Mathlib

/-!
Verification of the DeepSpeaker utility module (src/utils/utils.py).

The development shallowly embeds the parts of the module that the checked
properties are about:

* `list_files`: the local branch walks (folder, files) pairs as os.walk
  yields them; the cloud branch iterates bucket blobs.  Both are embedded
  over explicit lists describing the storage contents.
* the feature extractors `get_mel_spectrogram`, `get_mfcc_v1`,
  `get_mfcc_v2`, `get_energy`: the properties under check are about the
  shapes of the returned matrices, so each library call is embedded by its
  effect on array shape, following the documented behaviour of the library
  version the module imports (librosa with `center=True` STFT framing,
  python_speech_features framing).  Seconds-to-samples conversions keep
  their exact arithmetic (`int()` truncation, round-half-up), with `ℚ`
  standing in for Python floats; all concrete values used in theorems are
  far from binary-rounding boundaries, so the rational model agrees with
  the float computation there.
* `remove_silence`: a pydub clip is embedded as one sample per
  millisecond (`List ℚ`); `len`, slicing and concatenation are list
  operations.  `dBFS` of a segment is `20*log10(rms/max_amplitude)`,
  a strictly monotone function of the mean square of the samples (with
  the empty/silent segment mapped to `-∞`, below every finite threshold),
  so comparisons of `dBFS` with a finite threshold are embedded as
  comparisons of `meanSq` with the corresponding transformed threshold,
  which is a positive rational.
* `SaverCallback.on_epoch_end`: embedded as a trace of which save paths
  were attempted, whether an exception escaped the method, and whether
  one was logged.
-/

namespace DeepSpeaker

/-! ## File enumeration (`list_files`, utils.py lines 89-103) -/

/-- os.path.join of a folder and a relative file name. -/
def joinPath (folder filename : String) : String := folder ++ "/" ++ filename

/-- The full virtual path the cloud branch of `list_files` builds for a blob:
`prefix + bucket_name + '/' + f.name` with `prefix = 'gs://'`. -/
def gsFullPath (bucket objectKey : String) : String := "gs://" ++ bucket ++ "/" ++ objectKey

/-- Local branch of `list_files`: for each (folder, files) pair produced by
os.walk and each file name in it, test the predicate on the joined path and
yield that joined path on success. -/
def list_files_local (walk : List (String × List String)) (p : String → Bool) : List String :=
  walk.flatMap fun e =>
    e.2.filterMap fun fn => if p (joinPath e.1 fn) then some (joinPath e.1 fn) else none

/-- Cloud branch of `list_files`: for each blob of the bucket, the predicate is
tested on the blob name `f.name` (the bare object key) and, on success, the
reconstructed full virtual path is yielded. -/
def list_files_cloud (bucket : String) (blobs : List String) (p : String → Bool) : List String :=
  blobs.filterMap fun f => if p f then some (gsFullPath bucket f) else none

/-- The cloud listing as the specification words it: the predicate evaluated
against the full virtual path of each listed object.  Stated only to be
compared with `list_files_cloud`, which is what the code does. -/
def list_files_cloud_claim (bucket : String) (blobs : List String) (p : String → Bool) :
    List String :=
  blobs.filterMap fun f =>
    if p (gsFullPath bucket f) then some (gsFullPath bucket f) else none

/-! ## Feature-extractor shape pipeline (utils.py lines 30-86) -/

/-- Python `int()` applied to a number: truncation toward zero. -/
def pyInt (q : ℚ) : ℤ := if q < 0 then ⌈q⌉ else ⌊q⌋

/-- `int(win_len * tgt_sr)`: the STFT window length in samples
(utils.py lines 35, 48, 79). -/
def winSamples (winLen tgtSr : ℚ) : ℤ := pyInt (winLen * tgtSr)

/-- `int(hop_len * tgt_sr)`: the STFT hop length in samples
(utils.py lines 35, 48, 79). -/
def hopSamples (hopLen tgtSr : ℚ) : ℤ := pyInt (hopLen * tgtSr)

/-- Output length of `librosa.core.resample`:
`ceil(n * target_sr / orig_sr)` samples. -/
def resampleLen (n : ℕ) (origSr targetSr : ℚ) : ℕ := ⌈(n : ℚ) * targetSr / origSr⌉₊

/-- The conditional resampling step shared verbatim by all four extractors
(utils.py lines 32-33, 45-46, 62-63, 76-77): `if sr != 16000.0`, resample
from `sr` to the literal 16000.  The `tgt_sr` parameter plays no role in it. -/
def processedLen (n : ℕ) (sr : ℚ) : ℕ :=
  if sr ≠ 16000 then resampleLen n sr 16000 else n

/-- The resampling step as the claim words it: resample to the configured
target rate `tgt_sr` exactly when the input rate differs from that target.
Stated only to be compared with `processedLen`, which is what the code does. -/
def processedLenClaim (n : ℕ) (sr tgtSr : ℚ) : ℕ :=
  if sr ≠ tgtSr then resampleLen n sr tgtSr else n

/-- Frame count of `librosa.stft` on an n-sample signal with the default
`center=True`: the signal is reflect-padded by `n_fft/2` on each side and
framed with frame length `n_fft`, giving
`(n + 2*(n_fft/2) - n_fft) / hop + 1` frames. -/
def stftFrames (n nFft hop : ℕ) : ℕ := (n + 2 * (nFft / 2) - nFft) / hop + 1

/-- Shape of the `librosa.stft` output: `1 + n_fft/2` frequency rows by
`stftFrames` time columns. -/
def stftShape (n nFft hop : ℕ) : ℕ × ℕ := (1 + nFft / 2, stftFrames n nFft hop)

/-- `librosa.magphase` returns a magnitude array of the input's shape. -/
def magphaseShape (s : ℕ × ℕ) : ℕ × ℕ := s

/-- `librosa.feature.melspectrogram(S=...)` maps the frequency axis to
`n_mels` mel bands and keeps the time axis. -/
def melspectrogramShape (nMels : ℕ) (s : ℕ × ℕ) : ℕ × ℕ := (nMels, s.2)

/-- `librosa.power_to_db` is elementwise, keeping the shape. -/
def powerToDbShape (s : ℕ × ℕ) : ℕ × ℕ := s

/-- `librosa.feature.mfcc(S=...)` keeps `n_mfcc` cepstral rows and the
time axis. -/
def mfccShape (nMfcc : ℕ) (s : ℕ × ℕ) : ℕ × ℕ := (nMfcc, s.2)

/-- `librosa.feature.rmse(S=...)` collapses the frequency axis to a single
row of per-frame energies. -/
def rmseShape (s : ℕ × ℕ) : ℕ × ℕ := (1, s.2)

/-- `librosa.feature.delta` / `python_speech_features.delta` return an array
of the input's shape. -/
def deltaShape (s : ℕ × ℕ) : ℕ × ℕ := s

/-- `numpy` transpose `.T` of a 2-d array. -/
def transposeShape (s : ℕ × ℕ) : ℕ × ℕ := (s.2, s.1)

/-- Shape of `numpy.vstack`: row counts add, the column count is the first
block's. -/
def vstackShape (l : List (ℕ × ℕ)) : ℕ × ℕ :=
  ((l.map Prod.fst).sum, ((l.head?.map Prod.snd).getD 0))

/-- Shape of `numpy.hstack`: column counts add, the row count is the first
block's. -/
def hstackShape (l : List (ℕ × ℕ)) : ℕ × ℕ :=
  (((l.head?.map Prod.fst).getD 0), (l.map Prod.snd).sum)

/-- The `features` list each extractor builds: the base matrix, then its
first derivative if `delta`, then its second derivative if `delta_delta`
(utils.py lines 51-55, 67-71, 81-85). -/
def featureStack (base : ℕ × ℕ) (delta deltaDelta : Bool) : List (ℕ × ℕ) :=
  [base] ++ (if delta then [deltaShape base] else [])
         ++ (if deltaDelta then [deltaShape base] else [])

/-- Shape of the matrix returned by `get_mel_spectrogram` (utils.py 30-40):
resample step, STFT, magphase, mel projection, optional dB scaling
(shape-neutral either way), transpose. -/
def get_mel_spectrogram_shape (n : ℕ) (sr tgtSr winLen hopLen : ℚ) (nFft nMels : ℕ) : ℕ × ℕ :=
  let n' := processedLen n sr
  let spec := magphaseShape (stftShape n' nFft (hopSamples hopLen tgtSr).toNat)
  let mel := melspectrogramShape nMels spec
  transposeShape (powerToDbShape mel)

/-- Shape of the matrix returned by `get_mfcc_v1` (utils.py 43-56):
same front end as the mel spectrogram, then MFCC, the delta stack,
`np.vstack` and transpose. -/
def get_mfcc_v1_shape (n : ℕ) (sr : ℚ) (nMfcc : ℕ) (tgtSr winLen hopLen : ℚ)
    (nFft nMels : ℕ) (delta deltaDelta : Bool) : ℕ × ℕ :=
  let n' := processedLen n sr
  let spec := magphaseShape (stftShape n' nFft (hopSamples hopLen tgtSr).toNat)
  let mel := melspectrogramShape nMels spec
  let mfccs := mfccShape nMfcc (powerToDbShape mel)
  transposeShape (vstackShape (featureStack mfccs delta deltaDelta))

/-- Round-half-up, as python_speech_features uses when converting seconds
to samples. -/
def roundHalfUp (q : ℚ) : ℤ := ⌊q + 1 / 2⌋

/-- Frame count of `python_speech_features.sigproc.framesig`: one frame when
the signal is no longer than a frame, else `1 + ceil((slen - frameLen) / frameStep)`. -/
def psfNumFrames (slen frameLen frameStep : ℕ) : ℕ :=
  if slen ≤ frameLen then 1 else 1 + (slen - frameLen + frameStep - 1) / frameStep

/-- Shape of the `python_speech_features.mfcc` output: one row per frame,
`numcep` cepstral columns. -/
def psfMfccShape (slen : ℕ) (winlen winstep sampleRate : ℚ) (numcep : ℕ) : ℕ × ℕ :=
  (psfNumFrames slen (roundHalfUp (winlen * sampleRate)).toNat
      (roundHalfUp (winstep * sampleRate)).toNat,
    numcep)

/-- Shape of the matrix returned by `get_mfcc_v2` (utils.py 59-72):
resample step, python_speech_features MFCC, the delta stack, `np.hstack`. -/
def get_mfcc_v2_shape (n : ℕ) (sr : ℚ) (nMfcc : ℕ) (tgtSr winLen hopLen : ℚ)
    (delta deltaDelta : Bool) : ℕ × ℕ :=
  let n' := processedLen n sr
  let mfccs := psfMfccShape n' winLen hopLen tgtSr nMfcc
  hstackShape (featureStack mfccs delta deltaDelta)

/-- Shape of the matrix returned by `get_energy` (utils.py 75-86):
resample step, STFT, magphase, per-frame RMS energy, the delta stack,
`np.vstack` and transpose. -/
def get_energy_shape (n : ℕ) (sr tgtSr winLen hopLen : ℚ) (nFft : ℕ)
    (delta deltaDelta : Bool) : ℕ × ℕ :=
  let n' := processedLen n sr
  let spec := magphaseShape (stftShape n' nFft (hopSamples hopLen tgtSr).toNat)
  let energy := rmseShape spec
  transposeShape (vstackShape (featureStack energy delta deltaDelta))

/-! ## Silence trimming (`remove_silence`, utils.py lines 117-132) -/

/-- Python slice `sound[a:b]` on a clip held as one sample per millisecond. -/
def pySlice (xs : List ℚ) (a b : ℕ) : List ℚ := (xs.take b).drop a

/-- Mean square of a segment's samples (0 for the empty segment).  `dBFS` is
a strictly monotone function of this value (`-∞` at 0), so the pydub
comparisons `seg.dBFS < t` and `seg.dBFS > t` against a finite decibel
threshold `t` are exactly `meanSq seg < thr` and `thr < meanSq seg` for the
corresponding transformed threshold `thr`. -/
def meanSq (xs : List ℚ) : ℚ := (xs.map fun x => x * x).sum / xs.length

/-- State of the scan loop of `remove_silence`: the output clip built so far
and `cur_start`, the start of the pending segment. -/
structure TrimState where
  clip : List ℚ
  curStart : ℕ
deriving DecidableEq

/-- One iteration of the while loop of `remove_silence` at chunk index `i`
(so `trim_ms = i*chunk`): if the scanned chunk is silent, flush the pending
segment `sound[cur_start:trim_ms]` when non-empty and restart past the
silent chunk; otherwise leave the state unchanged (only `trim_ms`, which is
implicit in `i`, advances). -/
def trimStep (sound : List ℚ) (thr : ℚ) (chunk : ℕ) (s : TrimState) (i : ℕ) : TrimState :=
  if meanSq (pySlice sound (i * chunk) (i * chunk + chunk)) < thr then
    { clip := if i * chunk ≠ s.curStart then s.clip ++ pySlice sound s.curStart (i * chunk)
              else s.clip,
      curStart := i * chunk + chunk }
  else s

/-- Number of iterations of the while loop: `trim_ms` takes the values
`i*chunk` and the loop runs while `trim_ms + chunk < len`, which for
positive `chunk` is exactly `i < (len - 1) / chunk`. -/
def numIters (len chunk : ℕ) : ℕ := (len - 1) / chunk

/-- The state after the scan loop of `remove_silence` finishes. -/
def trimScan (sound : List ℚ) (thr : ℚ) (chunk : ℕ) : TrimState :=
  (List.range (numIters sound.length chunk)).foldl (trimStep sound thr chunk) ⟨[], 0⟩

/-- `remove_silence`: run the scan loop, then append the trailing segment
`sound[cur_start:]` exactly when its loudness is strictly above the
threshold (`.dBFS > silence_threshold`, utils.py line 130).
The embedding is meaningful for `0 < chunk`; with `chunk_size = 0` the
Python loop never terminates on a non-empty clip. -/
def remove_silence (sound : List ℚ) (thr : ℚ) (chunk : ℕ) : List ℚ :=
  if thr < meanSq (sound.drop (trimScan sound thr chunk).curStart) then
    (trimScan sound thr chunk).clip ++ sound.drop (trimScan sound thr chunk).curStart
  else
    (trimScan sound thr chunk).clip

/-- Invariant of the scan loop after `k` iterations: the flush point lies at
or before the scan position `k*chunk`, the clip built so far is no longer
than the prefix before the flush point, and if it has exactly that length
then nothing was ever dropped and the clip is that prefix. -/
def trimInv (sound : List ℚ) (k chunk : ℕ) (s : TrimState) : Prop :=
  s.curStart ≤ k * chunk ∧ s.clip.length ≤ s.curStart ∧
    (s.clip.length = s.curStart → s.clip = sound.take s.curStart)

/-! ## SaverCallback.on_epoch_end (utils.py lines 202-210) -/

/-- Trace of one `SaverCallback.on_epoch_end` call: which save paths were
attempted, whether an exception escaped the method, and whether an
exception was logged. -/
structure EpochEndTrace where
  primaryAttempted : Bool
  secondaryAttempted : Bool
  propagated : Bool
  logged : Bool
deriving DecidableEq

/-- Control flow of `SaverCallback.on_epoch_end` when the primary
`saver.save` raises iff `primaryRaises` and the secondary
`model.save_weights` raises iff `secondaryRaises`: the primary save (line
205) is not wrapped in try/except, so its exception escapes and the
secondary save is never reached; the secondary save (line 207) is wrapped
in try/except that logs the exception and passes. -/
def saverOnEpochEnd (primaryRaises secondaryRaises : Bool) : EpochEndTrace :=
  if primaryRaises then ⟨true, false, true, false⟩
  else if secondaryRaises then ⟨true, true, false, true⟩
  else ⟨true, true, false, false⟩

/-! ## Theorems -/

/-- C1 counterexample: a predicate that matches exactly the full virtual path
of the only object matches nothing, because the cloud branch applies the
predicate to the bare object key `f.name`; the spec-worded listing yields
the object. -/
theorem list_files_cloud_key_cex :
    list_files_cloud ("b") (["a.wav"]) (fun s => s == "gs://b/a.wav") = ([] : List String) ∧
    list_files_cloud_claim ("b") (["a.wav"]) (fun s => s == "gs://b/a.wav")
      = (["gs://b/a.wav"] : List String) ∧
    ([] : List String) ≠ (["gs://b/a.wav"] : List String) := by
  refine ⟨rfl, rfl, by decide⟩

/-- C1 amended: `list_files` yields, for the local backend, exactly the
joined folder/file paths satisfying the predicate (the predicate sees the
yielded full path); for the cloud backend, exactly the full virtual paths
`gs://bucket/key` of those objects whose bare key satisfies the predicate
(the predicate sees the key, not the yielded full path). -/
theorem list_files_yield_characterization (walk : List (String × List String))
    (bucket : String) (blobs : List String) (p : String → Bool) (x : String) :
    (x ∈ list_files_local walk p ↔
      ∃ e ∈ walk, ∃ fn ∈ e.2, p (joinPath e.1 fn) = true ∧ x = joinPath e.1 fn) ∧
    (x ∈ list_files_cloud bucket blobs p ↔
      ∃ f ∈ blobs, p f = true ∧ x = gsFullPath bucket f) := by
  constructor
  · simp only [list_files_local, List.mem_flatMap, List.mem_filterMap]
    constructor
    · rintro ⟨e, he, fn, hfn, hif⟩
      by_cases hp : p (joinPath e.1 fn)
      · rw [if_pos hp] at hif
        exact ⟨e, he, fn, hfn, hp, (Option.some.inj hif).symm⟩
      · rw [if_neg hp] at hif
        cases hif
    · rintro ⟨e, he, fn, hfn, hp, hx⟩
      exact ⟨e, he, fn, hfn, by rw [if_pos hp, hx]⟩
  · simp only [list_files_cloud, List.mem_filterMap]
    constructor
    · rintro ⟨f, hf, hif⟩
      by_cases hp : p f
      · rw [if_pos hp] at hif
        exact ⟨f, hf, hp, (Option.some.inj hif).symm⟩
      · rw [if_neg hp] at hif
        cases hif
    · rintro ⟨f, hf, hp, hx⟩
      exact ⟨f, hf, by rw [if_pos hp, hx]⟩

/-- C7 counterexample: with `sr = tgt_sr = 8000` the claim says the waveform
is processed unresampled (length 800), but the code tests the literal
16000.0 and resamples an 800-sample input to 1600 samples. -/
theorem resample_tgt_sr_cex :
    processedLen 800 8000 = 1600 ∧ processedLenClaim 800 8000 8000 = 800 ∧
    processedLen 800 8000 ≠ processedLenClaim 800 8000 8000 := by
  refine ⟨by norm_num [processedLen, resampleLen], by norm_num [processedLenClaim], ?_⟩
  norm_num [processedLen, processedLenClaim, resampleLen]

/-- C7 amended: every extractor resamples, to the literal rate 16000,
exactly when the input rate differs from 16000; the `tgt_sr` parameter is
ignored by the resampling step.  Equivalently, the code's step coincides
with the claimed rule with the target pinned at 16000, for every
configuration. -/
theorem resample_fixed_target (n : ℕ) (sr tgtSr : ℚ) :
    processedLen n sr = processedLenClaim n sr 16000 ∧
    processedLenClaim n sr tgtSr
      = (if sr ≠ tgtSr then resampleLen n sr tgtSr else n) := by
  exact ⟨rfl, rfl⟩

/-- C8 counterexample: at `win_len = 0.0251` s and `tgt_sr = 16000` the
product is 401.6; the code's `int()` truncates to 401 while rounding to
nearest gives 402. -/
theorem stft_window_round_cex :
    winSamples (251 / 10000) 16000 = 401 ∧
    round ((251 / 10000 : ℚ) * 16000) = 402 ∧
    winSamples (251 / 10000) 16000 ≠ round ((251 / 10000 : ℚ) * 16000) := by
  refine ⟨?_, ?_, ?_⟩ <;> norm_num [winSamples, pyInt, round_eq]

/-- C8 amended: the window and hop lengths handed to the STFT are
`int(win_len * tgt_sr)` and `int(hop_len * tgt_sr)` where `int()` truncates
toward zero — for the nonnegative products that arise, the floor — rather
than rounding to the nearest integer. -/
theorem stft_samples_truncate (winLen hopLen tgtSr : ℚ)
    (hw : 0 ≤ winLen * tgtSr) (hh : 0 ≤ hopLen * tgtSr) :
    winSamples winLen tgtSr = ⌊winLen * tgtSr⌋ ∧
    hopSamples hopLen tgtSr = ⌊hopLen * tgtSr⌋ := by
  constructor
  · rw [winSamples, pyInt, if_neg (not_lt.mpr hw)]
  · rw [hopSamples, pyInt, if_neg (not_lt.mpr hh)]

/-- C8 witness: the amended statement at the default configuration
`win_len = 0.025`, `hop_len = 0.010`, `tgt_sr = 16000`. -/
theorem stft_samples_truncate_witness :
    (0 ≤ (1 / 40 : ℚ) * 16000 ∧ 0 ≤ (1 / 100 : ℚ) * 16000) ∧
    (winSamples (1 / 40) 16000 = ⌊(1 / 40 : ℚ) * 16000⌋ ∧
      hopSamples (1 / 100) 16000 = ⌊(1 / 100 : ℚ) * 16000⌋) :=
  ⟨⟨by norm_num, by norm_num⟩,
    stft_samples_truncate (1 / 40) (1 / 100) 16000 (by norm_num) (by norm_num)⟩

/-- C9 counterexample: when the primary tf save raises, the exception
escapes `on_epoch_end` and the secondary keras save is never attempted —
contradicting the claim that a failure of either save path does not prevent
the other from being attempted. -/
theorem saver_primary_blocks_secondary_cex :
    (saverOnEpochEnd true false).secondaryAttempted = false ∧
    (saverOnEpochEnd true false).propagated = true := by
  exact ⟨rfl, rfl⟩

/-- C9 amended: an exception of the secondary (keras weights) save is caught
and logged and never escapes, and does not undo the already-performed
primary save; but an exception of the primary (tf checkpoint) save
propagates to the caller and prevents the secondary save from being
attempted. -/
theorem saver_partial_failure (s : Bool) :
    (saverOnEpochEnd false s).propagated = false ∧
    (saverOnEpochEnd false s).secondaryAttempted = true ∧
    (saverOnEpochEnd false s).logged = s ∧
    (saverOnEpochEnd false s).primaryAttempted = true ∧
    (saverOnEpochEnd true s).propagated = true ∧
    (saverOnEpochEnd true s).secondaryAttempted = false := by
  cases s <;> exact ⟨rfl, rfl, rfl, rfl, rfl, rfl⟩

/-- The loop-iteration count is exact: for positive chunk size, the loop
body runs at chunk index `i` precisely when `i*chunk + chunk < len`. -/
theorem numIters_lt_iff {len chunk : ℕ} (hc : 0 < chunk) (i : ℕ) :
    i < numIters len chunk ↔ (i + 1) * chunk < len := by
  have hpos : 0 < (i + 1) * chunk := Nat.mul_pos (Nat.succ_pos i) hc
  unfold numIters
  rw [Nat.lt_iff_add_one_le, Nat.le_div_iff_mul_le hc]
  omega

/-- The scan position never reaches the end of the clip. -/
theorem numIters_mul_le (len chunk : ℕ) : numIters len chunk * chunk ≤ len - 1 := by
  have h : (len - 1) / chunk * chunk ≤ len - 1 := Nat.div_mul_le_self (len - 1) chunk
  exact h

/-- Length of a Python slice. -/
theorem pySlice_length (xs : List ℚ) (a b : ℕ) :
    (pySlice xs a b).length = min b xs.length - a := by
  simp [pySlice]

/-- The loop invariant holds after every prefix of the scan. -/
theorem trimScan_inv_aux (sound : List ℚ) (thr : ℚ) (chunk : ℕ) (hc : 0 < chunk) :
    ∀ k, k ≤ numIters sound.length chunk →
      trimInv sound k chunk ((List.range k).foldl (trimStep sound thr chunk) ⟨[], 0⟩) := by
  intro k
  induction k with
  | zero =>
    intro _
    exact ⟨Nat.zero_le _, le_rfl, fun _ => rfl⟩
  | succ k ih =>
    intro hk
    have hk' : k ≤ numIters sound.length chunk := Nat.le_of_succ_le hk
    have hlen : (k + 1) * chunk < sound.length := (numIters_lt_iff hc k).mp hk
    have hkc : k * chunk + chunk < sound.length := by rw [Nat.succ_mul] at hlen; exact hlen
    obtain ⟨h1, h2, h3⟩ := ih hk'
    rw [List.range_succ, List.foldl_append, List.foldl_cons, List.foldl_nil]
    set s := (List.range k).foldl (trimStep sound thr chunk) ⟨[], 0⟩ with hs
    unfold trimStep
    by_cases hsil : meanSq (pySlice sound (k * chunk) (k * chunk + chunk)) < thr
    · rw [if_pos hsil]
      by_cases hflush : k * chunk ≠ s.curStart
      · have hslice : (pySlice sound s.curStart (k * chunk)).length
            = k * chunk - s.curStart := by
          rw [pySlice_length]
          omega
        refine ⟨?_, ?_, ?_⟩
        · show k * chunk + chunk ≤ (k + 1) * chunk
          rw [Nat.succ_mul]
        · show (if k * chunk ≠ s.curStart then s.clip ++ pySlice sound s.curStart (k * chunk)
              else s.clip).length ≤ k * chunk + chunk
          rw [if_pos hflush, List.length_append]
          omega
        · intro habs
          exfalso
          rw [if_pos hflush, List.length_append] at habs
          simp only at habs
          omega
      · refine ⟨?_, ?_, ?_⟩
        · show k * chunk + chunk ≤ (k + 1) * chunk
          rw [Nat.succ_mul]
        · show (if k * chunk ≠ s.curStart then s.clip ++ pySlice sound s.curStart (k * chunk)
              else s.clip).length ≤ k * chunk + chunk
          rw [if_neg hflush]
          omega
        · intro habs
          exfalso
          rw [if_neg hflush] at habs
          simp only at habs
          omega
    · rw [if_neg hsil]
      refine ⟨?_, h2, h3⟩
      calc s.curStart ≤ k * chunk := h1
        _ ≤ (k + 1) * chunk := Nat.mul_le_mul_right chunk (Nat.le_succ k)

/-- The loop invariant at the final scan state. -/
theorem trimScan_inv (sound : List ℚ) (thr : ℚ) (chunk : ℕ) (hc : 0 < chunk) :
    trimInv sound (numIters sound.length chunk) chunk (trimScan sound thr chunk) :=
  trimScan_inv_aux sound thr chunk hc _ le_rfl

/-- The final flush point lies strictly inside a non-empty clip. -/
theorem trimScan_curStart_le (sound : List ℚ) (thr : ℚ) (chunk : ℕ) (hc : 0 < chunk) :
    (trimScan sound thr chunk).curStart ≤ sound.length - 1 := by
  have h1 := (trimScan_inv sound thr chunk hc).1
  have h2 := numIters_mul_le sound.length chunk
  omega

/-- The trimmed clip is never longer than the input clip. -/
theorem remove_silence_length_le (sound : List ℚ) (thr : ℚ) (chunk : ℕ) (hc : 0 < chunk) :
    (remove_silence sound thr chunk).length ≤ sound.length := by
  obtain ⟨h1, h2, h3⟩ := trimScan_inv sound thr chunk hc
  have hcs : (trimScan sound thr chunk).curStart ≤ sound.length := by
    have := trimScan_curStart_le sound thr chunk hc
    omega
  unfold remove_silence
  by_cases hb : thr < meanSq (sound.drop (trimScan sound thr chunk).curStart)
  · rw [if_pos hb, List.length_append, List.length_drop]
    omega
  · rw [if_neg hb]
    omega

/-- A trimmed clip of full length is the input clip itself: the output is a
concatenation of disjoint segments of the input in original order, so it can
only have full length when every sample was kept. -/
theorem remove_silence_eq_of_length (sound : List ℚ) (thr : ℚ) (chunk : ℕ) (hc : 0 < chunk)
    (hlen : (remove_silence sound thr chunk).length = sound.length) :
    remove_silence sound thr chunk = sound := by
  obtain ⟨h1, h2, h3⟩ := trimScan_inv sound thr chunk hc
  have hcs : (trimScan sound thr chunk).curStart ≤ sound.length := by
    have := trimScan_curStart_le sound thr chunk hc
    omega
  unfold remove_silence at hlen ⊢
  by_cases hb : thr < meanSq (sound.drop (trimScan sound thr chunk).curStart)
  · rw [if_pos hb] at hlen ⊢
    rw [List.length_append, List.length_drop] at hlen
    have hceq : (trimScan sound thr chunk).clip.length
        = (trimScan sound thr chunk).curStart := by omega
    rw [h3 hceq]
    exact List.take_append_drop _ _
  · rw [if_neg hb] at hlen ⊢
    have hceq : (trimScan sound thr chunk).clip.length
        = (trimScan sound thr chunk).curStart := by omega
    have hcl : (trimScan sound thr chunk).curStart = sound.length := by omega
    rw [h3 hceq, hcl, List.take_length]

/-- Iterating `remove_silence` reaches a fixed point: the length strictly
decreases until it stabilises, and a stable length forces identity. -/
theorem rs_fixed_aux (thr : ℚ) (chunk : ℕ) (hc : 0 < chunk) :
    ∀ N sound, List.length sound ≤ N →
      ∃ n, remove_silence ((fun s => remove_silence s thr chunk)^[n] sound) thr chunk
          = (fun s => remove_silence s thr chunk)^[n] sound := by
  intro N
  induction N with
  | zero =>
    intro sound h
    have h0 : sound = [] := List.eq_nil_of_length_eq_zero (Nat.le_zero.mp h)
    subst h0
    refine ⟨0, ?_⟩
    simp only [Function.iterate_zero_apply]
    have hle := remove_silence_length_le ([]) thr chunk hc
    exact List.eq_nil_of_length_eq_zero (Nat.le_zero.mp (by simpa using hle))
  | succ N ih =>
    intro sound h
    by_cases heq : (remove_silence sound thr chunk).length = sound.length
    · exact ⟨0, by simpa using remove_silence_eq_of_length sound thr chunk hc heq⟩
    · have hle := remove_silence_length_le sound thr chunk hc
      obtain ⟨n, hn⟩ := ih (remove_silence sound thr chunk) (by omega)
      refine ⟨n + 1, ?_⟩
      simp only [Function.iterate_succ_apply]
      exact hn

/-- A fold whose step fixes every state is the identity. -/
theorem foldl_fixed {g : TrimState → ℕ → TrimState} :
    ∀ (l : List ℕ) (s : TrimState), (∀ i ∈ l, ∀ t, g t i = t) → l.foldl g s = s := by
  intro l
  induction l with
  | nil => intro s _; rfl
  | cons a l ih =>
    intro s h
    rw [List.foldl_cons, h a (List.mem_cons_self a l) s]
    exact ih s fun i hi t => h i (List.mem_cons_of_mem a hi) t

/-- C4: re-trimming the output of `remove_silence` (same threshold and chunk
size) yields a clip of equal or lesser duration, and iterating
`remove_silence` converges to a fixed point.  The hypothesis `0 < chunk`
reflects that the Python loop does not terminate for `chunk_size = 0`. -/
theorem remove_silence_contracting_convergent (sound : List ℚ) (thr : ℚ) (chunk : ℕ)
    (hc : 0 < chunk) :
    (remove_silence (remove_silence sound thr chunk) thr chunk).length
      ≤ (remove_silence sound thr chunk).length ∧
    ∃ n, remove_silence ((fun s => remove_silence s thr chunk)^[n] sound) thr chunk
        = (fun s => remove_silence s thr chunk)^[n] sound :=
  ⟨remove_silence_length_le _ thr chunk hc, rs_fixed_aux thr chunk hc sound.length sound le_rfl⟩

/-- C4 witness: the theorem instantiated on a concrete one-sample clip. -/
theorem remove_silence_contracting_convergent_witness :
    0 < 1 ∧
    ((remove_silence (remove_silence ([2] : List ℚ) 1 1) 1 1).length
        ≤ (remove_silence ([2] : List ℚ) 1 1).length ∧
      ∃ n, remove_silence ((fun s => remove_silence s 1 1)^[n] ([2] : List ℚ)) 1 1
          = (fun s => remove_silence s 1 1)^[n] ([2] : List ℚ)) :=
  ⟨Nat.one_pos, remove_silence_contracting_convergent ([2]) 1 1 Nat.one_pos⟩

/-- C5: if every scanned chunk and the whole clip are strictly above the
threshold, `remove_silence` returns the clip unchanged: the loop never
flushes, so the final flush point is still 0, and the tail test appends the
whole clip. -/
theorem remove_silence_all_above_id (sound : List ℚ) (thr : ℚ) (chunk : ℕ) (hc : 0 < chunk)
    (hchunks : ∀ i, i < numIters sound.length chunk →
      thr < meanSq (pySlice sound (i * chunk) (i * chunk + chunk)))
    (hall : thr < meanSq sound) :
    remove_silence sound thr chunk = sound := by
  have hscan : trimScan sound thr chunk = ⟨[], 0⟩ := by
    unfold trimScan
    apply foldl_fixed
    intro i hi t
    unfold trimStep
    rw [if_neg (lt_asymm (hchunks i (List.mem_range.mp hi)))]
  unfold remove_silence
  rw [hscan]
  show (if thr < meanSq (sound.drop 0) then [] ++ sound.drop 0 else []) = sound
  rw [List.drop_zero, if_pos hall, List.nil_append]

/-- C5 witness: a clip of loud samples with every chunk and the whole clip
strictly above the threshold is returned unchanged. -/
theorem remove_silence_all_above_id_witness :
    (0 < 2 ∧
      (∀ i, i < numIters (List.length ([2, 3, 2, 3] : List ℚ)) 2 →
        (1 : ℚ) < meanSq (pySlice ([2, 3, 2, 3] : List ℚ) (i * 2) (i * 2 + 2))) ∧
      (1 : ℚ) < meanSq ([2, 3, 2, 3] : List ℚ)) ∧
    remove_silence ([2, 3, 2, 3] : List ℚ) 1 2 = ([2, 3, 2, 3] : List ℚ) := by
  have h1 : 0 < 2 := Nat.zero_lt_two
  have h2 : ∀ i, i < numIters (List.length ([2, 3, 2, 3] : List ℚ)) 2 →
      (1 : ℚ) < meanSq (pySlice ([2, 3, 2, 3] : List ℚ) (i * 2) (i * 2 + 2)) := by
    intro i hi
    norm_num [numIters] at hi
    have h0 : i = 0 := by omega
    subst h0
    norm_num [meanSq, pySlice]
  have h3 : (1 : ℚ) < meanSq ([2, 3, 2, 3] : List ℚ) := by norm_num [meanSq]
  exact ⟨⟨h1, h2, h3⟩, remove_silence_all_above_id ([2, 3, 2, 3]) 1 2 h1 h2 h3⟩

/-- C6 counterexample: on the one-sample clip `[1]` with threshold equal to
its mean square, the loop scans nothing (flush point 0), the trailing
segment is the whole clip and is not below the threshold, yet the output is
empty — the code appends the tail only on strict `>`, so a tail exactly at
the threshold is dropped, contradicting the claimed `iff`. -/
theorem tail_at_threshold_dropped_cex :
    (trimScan ([1] : List ℚ) 1 10).curStart = 0 ∧
    meanSq (List.drop (trimScan ([1] : List ℚ) 1 10).curStart ([1] : List ℚ)) = 1 ∧
    ¬ meanSq (List.drop (trimScan ([1] : List ℚ) 1 10).curStart ([1] : List ℚ)) < 1 ∧
    remove_silence ([1] : List ℚ) 1 10 = ([] : List ℚ) ∧
    remove_silence ([1] : List ℚ) 1 10
      ≠ (trimScan ([1] : List ℚ) 1 10).clip
          ++ List.drop (trimScan ([1] : List ℚ) 1 10).curStart ([1] : List ℚ) := by
  refine ⟨?_, ?_, ?_, ?_, ?_⟩ <;>
    norm_num [remove_silence, trimScan, numIters, meanSq]

/-- C6 amended: after the scan loop ends, the trailing segment from the last
flush point is appended iff its loudness is strictly above the silence
threshold; in particular a trailing segment whose loudness equals the
threshold exactly is not appended. -/
theorem tail_appended_iff_strictly_above (sound : List ℚ) (thr : ℚ) (chunk : ℕ)
    (hc : 0 < chunk) (hne : sound ≠ []) :
    (thr < meanSq (sound.drop (trimScan sound thr chunk).curStart) ↔
      remove_silence sound thr chunk
        = (trimScan sound thr chunk).clip ++ sound.drop (trimScan sound thr chunk).curStart) ∧
    (meanSq (sound.drop (trimScan sound thr chunk).curStart) = thr →
      remove_silence sound thr chunk = (trimScan sound thr chunk).clip) := by
  have hlen : 0 < sound.length := List.length_pos.mpr hne
  have hcs := trimScan_curStart_le sound thr chunk hc
  have hdlen : 0 < (sound.drop (trimScan sound thr chunk).curStart).length := by
    rw [List.length_drop]
    omega
  constructor
  · constructor
    · intro hpos
      unfold remove_silence
      rw [if_pos hpos]
    · intro heq
      by_contra hneg
      unfold remove_silence at heq
      rw [if_neg hneg] at heq
      have hlens := congrArg List.length heq
      rw [List.length_append] at hlens
      omega
  · intro heq
    unfold remove_silence
    rw [if_neg (by rw [heq]; exact lt_irrefl thr)]

/-- C6 amended witness: a clip whose only chunk is silent, so a flush never
happens but the (loud) tail from flush point 10 is appended. -/
theorem tail_appended_iff_strictly_above_witness :
    (0 < 10 ∧ ([1] : List ℚ) ≠ []) ∧
    (((1 : ℚ) < meanSq (List.drop (trimScan ([1] : List ℚ) 1 10).curStart ([1] : List ℚ)) ↔
      remove_silence ([1] : List ℚ) 1 10
        = (trimScan ([1] : List ℚ) 1 10).clip
            ++ List.drop (trimScan ([1] : List ℚ) 1 10).curStart ([1] : List ℚ)) ∧
    (meanSq (List.drop (trimScan ([1] : List ℚ) 1 10).curStart ([1] : List ℚ)) = 1 →
      remove_silence ([1] : List ℚ) 1 10 = (trimScan ([1] : List ℚ) 1 10).clip)) :=
  ⟨⟨Nat.succ_pos 9, by simp⟩,
    tail_appended_iff_strictly_above ([1]) 1 10 (Nat.succ_pos 9) (by simp)⟩

/-- C10: a clip no longer than one chunk is never scanned (the loop runs
zero times), so the result is the whole clip when its overall loudness is
strictly above the threshold, and the empty clip otherwise. -/
theorem remove_silence_short_clip (sound : List ℚ) (thr : ℚ) (chunk : ℕ)
    (hlen : sound.length ≤ chunk) :
    numIters sound.length chunk = 0 ∧
    (thr < meanSq sound → remove_silence sound thr chunk = sound) ∧
    (¬ thr < meanSq sound → remove_silence sound thr chunk = []) := by
  have hK : numIters sound.length chunk = 0 := by
    unfold numIters
    rcases Nat.eq_zero_or_pos chunk with h0 | hpos
    · rw [h0, Nat.div_zero]
    · exact Nat.div_eq_of_lt (by omega)
  have hscan : trimScan sound thr chunk = ⟨[], 0⟩ := by
    unfold trimScan
    rw [hK]
    rfl
  refine ⟨hK, ?_, ?_⟩
  · intro h
    unfold remove_silence
    rw [hscan]
    show (if thr < meanSq (sound.drop 0) then [] ++ sound.drop 0 else []) = sound
    rw [List.drop_zero, if_pos h, List.nil_append]
  · intro h
    unfold remove_silence
    rw [hscan]
    show (if thr < meanSq (sound.drop 0) then [] ++ sound.drop 0 else []) = []
    rw [List.drop_zero, if_neg h]

/-- C10 witness: a one-sample clip with chunk size 2, loud overall, is
returned whole. -/
theorem remove_silence_short_clip_witness :
    List.length ([3] : List ℚ) ≤ 2 ∧
    (numIters (List.length ([3] : List ℚ)) 2 = 0 ∧
      ((1 : ℚ) < meanSq ([3] : List ℚ) → remove_silence ([3] : List ℚ) 1 2 = ([3] : List ℚ)) ∧
      (¬ (1 : ℚ) < meanSq ([3] : List ℚ) → remove_silence ([3] : List ℚ) 1 2 = [])) :=
  ⟨by norm_num, remove_silence_short_clip ([3]) 1 2 (by norm_num)⟩

/-- C2 counterexample: at the default configuration (win 0.025 s, hop
0.010 s, 16000 Hz, n_fft 512) a 400-sample input gives window 400 and hop
160 samples; the claimed row count is `(400 - 400)/160 + 1 = 1`, but
`librosa.stft` centers (pads by n_fft/2 on each side), so both extractors
return 3 rows. -/
theorem stft_rows_formula_cex :
    winSamples (1 / 40) 16000 = 400 ∧ hopSamples (1 / 100) 16000 = 160 ∧
    (get_mel_spectrogram_shape 400 16000 16000 (1 / 40) (1 / 100) 512 128).1 = 3 ∧
    (get_energy_shape 400 16000 16000 (1 / 40) (1 / 100) 512 false false).1 = 3 ∧
    (400 - 400) / 160 + 1 = 1 ∧ (3 : ℕ) ≠ 1 := by
  have hhop0 : hopSamples (1 / 100) 16000 = 160 := by
    norm_num [hopSamples, pyInt]
  have hhop : (hopSamples (1 / 100) 16000).toNat = 160 := by
    rw [hhop0]
    rfl
  refine ⟨by norm_num [winSamples, pyInt], hhop0, ?_, ?_, by norm_num, by norm_num⟩ <;>
    norm_num [get_mel_spectrogram_shape, get_energy_shape, processedLen, transposeShape,
      powerToDbShape, melspectrogramShape, magphaseShape, stftShape, stftFrames,
      vstackShape, featureStack, rmseShape, hhop]

/-- C2 amended: for an even FFT size, the matrices returned by
`get_mel_spectrogram` and `get_energy` have `floor(len'/hop) + 1` rows,
where `len'` is the (possibly resampled) waveform length and `hop` the hop
length in samples — the centered-STFT frame count, not
`floor((len - window)/hop) + 1`. -/
theorem stft_rows_centered (n : ℕ) (sr tgtSr winLen hopLen : ℚ) (nFft nMels : ℕ) (d dd : Bool)
    (hfft : nFft % 2 = 0) :
    (get_mel_spectrogram_shape n sr tgtSr winLen hopLen nFft nMels).1
      = processedLen n sr / (hopSamples hopLen tgtSr).toNat + 1 ∧
    (get_energy_shape n sr tgtSr winLen hopLen nFft d dd).1
      = processedLen n sr / (hopSamples hopLen tgtSr).toNat + 1 := by
  have harg : processedLen n sr + 2 * (nFft / 2) - nFft = processedLen n sr := by omega
  constructor
  · simp [get_mel_spectrogram_shape, transposeShape, powerToDbShape, melspectrogramShape,
      magphaseShape, stftShape, stftFrames, harg]
  · simp [get_energy_shape, transposeShape, vstackShape, featureStack, rmseShape,
      magphaseShape, stftShape, stftFrames, deltaShape, harg]

/-- C2 amended witness: the row count at the default configuration on a
400-sample waveform is `400/160 + 1 = 3`. -/
theorem stft_rows_centered_witness :
    512 % 2 = 0 ∧
    ((get_mel_spectrogram_shape 400 16000 16000 (1 / 40) (1 / 100) 512 128).1
        = processedLen 400 16000 / (hopSamples (1 / 100) 16000).toNat + 1 ∧
      (get_energy_shape 400 16000 16000 (1 / 40) (1 / 100) 512 false false).1
        = processedLen 400 16000 / (hopSamples (1 / 100) 16000).toNat + 1) :=
  ⟨by norm_num, stft_rows_centered 400 16000 16000 (1 / 40) (1 / 100) 512 128 false false
    (by norm_num)⟩

/-- C3: for each of `get_mfcc_v1`, `get_mfcc_v2` and `get_energy`, enabling
delta and/or delta-delta keeps the row (time-frame) count of the returned
matrix and multiplies the column count by one plus the number of enabled
derivative flags (base coefficient counts: `n_mfcc`, `n_mfcc` and 1). -/
theorem delta_stack_shapes (n : ℕ) (sr : ℚ) (nMfcc : ℕ) (tgtSr winLen hopLen : ℚ)
    (nFft nMels : ℕ) (d dd : Bool) :
    ((get_mfcc_v1_shape n sr nMfcc tgtSr winLen hopLen nFft nMels d dd).1
        = (get_mfcc_v1_shape n sr nMfcc tgtSr winLen hopLen nFft nMels false false).1
      ∧ (get_mfcc_v1_shape n sr nMfcc tgtSr winLen hopLen nFft nMels d dd).2
        = (1 + (if d then 1 else 0) + (if dd then 1 else 0)) * nMfcc)
    ∧ ((get_mfcc_v2_shape n sr nMfcc tgtSr winLen hopLen d dd).1
        = (get_mfcc_v2_shape n sr nMfcc tgtSr winLen hopLen false false).1
      ∧ (get_mfcc_v2_shape n sr nMfcc tgtSr winLen hopLen d dd).2
        = (1 + (if d then 1 else 0) + (if dd then 1 else 0)) * nMfcc)
    ∧ ((get_energy_shape n sr tgtSr winLen hopLen nFft d dd).1
        = (get_energy_shape n sr tgtSr winLen hopLen nFft false false).1
      ∧ (get_energy_shape n sr tgtSr winLen hopLen nFft d dd).2
        = (1 + (if d then 1 else 0) + (if dd then 1 else 0)) * 1) := by
  cases d <;> cases dd <;>
    simp [get_mfcc_v1_shape, get_mfcc_v2_shape, get_energy_shape, featureStack, vstackShape,
      hstackShape, transposeShape, deltaShape, mfccShape, rmseShape, psfMfccShape,
      melspectrogramShape, powerToDbShape, magphaseShape, stftShape] <;>
    omega

end DeepSpeaker
